import Mathlib

/-!
memory-cache: the cache engine of `cache/cache.go`.

A shallow embedding of the TTL key-value store.  The Go map `map[string]*item`
is a finite map with unique keys (`AList`), the clock reading `time.Now()` is an
explicit argument of every operation that reads it, and the reader/writer lock
is left out: each operation is modelled as one atomic step on the store.
Values are immutable data: a slice or map handed to `Set` is not modified by
the caller afterwards.
-/

namespace MemoryCache

/-! ## Values, errors, time -/

/-- Dynamic Go values held in an `interface{}`: the three shapes the cache
accepts (`string`, `[]interface{}`, `map[string]interface{}`) and the other
dynamic types a caller or the JSON decoder can hand to `Set`. A Go map is
represented by its list of key/value pairs, read with `mapIndex`. -/
inductive Value where
  | nil : Value
  | str (s : String) : Value
  | slice (elems : List Value) : Value
  | dict (entries : List (String × Value)) : Value
  | int (n : Int) : Value
  | float64 (bits : Nat) : Value
  | bool (b : Bool) : Value

/-- The package-level `Err*` variables of `cache.go`. -/
inductive CacheError where
  | ErrInvalidValueType
  | ErrElementNotFound
  | ErrElementExpired
  | ErrNotSliceValue
  | ErrNotMapValue
  | ErrIndexOutOfRange
  | ErrMapElementNotFound
  deriving DecidableEq, Repr

open CacheError

/-- An instant of the clock behind `time.Now()`, in nanoseconds. -/
abbrev Time := Int

/-- Go `time.Duration`: a signed count of nanoseconds. -/
abbrev Duration := Int

/-- Go `Time.Add`, for a duration that keeps the sum inside the clock's range (any
`int64` duration added to a present-day reading does). -/
def Time.Add (t : Time) (d : Duration) : Time := t + d

/-- Go `Time.Before`: strictly earlier. -/
def Time.Before (t u : Time) : Bool := decide (t < u)

/-- Outcome of running a function body: it returns, or the Go runtime panics. -/
inductive Exec (α : Type) where
  | ret (a : α) : Exec α
  | panic : Exec α

/-- Go index expression `s[i]` on a slice: a run-time panic outside `0 ≤ i < len(s)`. -/
def sliceIndex (s : List Value) (i : Int) : Exec Value :=
  if i < 0 then Exec.panic
  else match s.get? i.toNat with
    | some v => Exec.ret v
    | none => Exec.panic

/-- Go map read `v, ok := m[k]`: `none` stands for `ok == false`. -/
def mapIndex (m : List (String × Value)) (k : String) : Option Value :=
  match m with
  | [] => none
  | (k', v) :: rest => if k = k' then some v else mapIndex rest k

/-! ## The store -/

/-- The struct `config.CacheCfg`. -/
structure CacheCfg where
  CleaningInterval : Duration

/-- The struct `item`. -/
structure item where
  value : Value
  expirationTime : Time

/-- The struct `Cache`: its configuration and the map `data`. -/
structure Cache where
  cfg : CacheCfg
  data : AList (fun _ : String => item)

/-- `NewCache`: an empty map. -/
def NewCache (cfg : CacheCfg) : Cache :=
  { cfg := cfg, data := ∅ }

/-- `checkValueType`: a type switch on the dynamic type of `value` alone. -/
def checkValueType (value : Value) : Option CacheError :=
  match value with
  | Value.str _ => none
  | Value.slice _ => none
  | Value.dict _ => none
  | _ => some ErrInvalidValueType

namespace Cache

/-- `Cache.unsafeGet`, with `now` the reading of `time.Now()`. -/
def unsafeGet (c : Cache) (now : Time) (key : String) : Value × Option CacheError :=
  match c.data.lookup key with
  | none => (Value.nil, some ErrElementNotFound)
  | some item =>
    if Time.Before item.expirationTime now then (Value.nil, some ErrElementExpired)
    else (item.value, none)

/-- `Cache.Get`. -/
def Get (c : Cache) (now : Time) (key : String) : Value × Option CacheError :=
  c.unsafeGet now key

/-- `Cache.Set`, with `now` the reading of `time.Now()`: the new store and the error. -/
def Set (c : Cache) (now : Time) (key : String) (value : Value) (ttl : Duration) :
    Cache × Option CacheError :=
  match checkValueType value with
  | some err => (c, some err)
  | none =>
    let item : item := { value := value, expirationTime := Time.Add now ttl }
    ({ c with data := c.data.insert key item }, none)

/-- `Cache.GetListElem`. The index expression `itemValueAsSlice[index]` is the one
operation of the accessors that can panic, so the outcome is an `Exec`. -/
def GetListElem (c : Cache) (now : Time) (key : String) (index : Int) :
    Exec (Value × Option CacheError) :=
  match c.unsafeGet now key with
  | (_, some err) => Exec.ret (Value.nil, some err)
  | (itemValue, none) =>
    match itemValue with
    | Value.slice itemValueAsSlice =>
      if index < 0 ∨ (itemValueAsSlice.length : Int) ≤ index then
        Exec.ret (Value.nil, some ErrIndexOutOfRange)
      else
        match sliceIndex itemValueAsSlice index with
        | Exec.ret v => Exec.ret (v, none)
        | Exec.panic => Exec.panic
    | _ => Exec.ret (Value.nil, some ErrNotSliceValue)

/-- `Cache.GetMapElemValue`. -/
def GetMapElemValue (c : Cache) (now : Time) (key : String) (mapKey : String) :
    Value × Option CacheError :=
  match c.unsafeGet now key with
  | (_, some err) => (Value.nil, some err)
  | (itemValue, none) =>
    match itemValue with
    | Value.dict itemValueAsMap =>
      match mapIndex itemValueAsMap mapKey with
      | none => (Value.nil, some ErrMapElementNotFound)
      | some mapKeyVal => (mapKeyVal, none)
    | _ => (Value.nil, some ErrNotMapValue)

/-- `Cache.Remove`: the new store and the error. -/
def Remove (c : Cache) (key : String) : Cache × Option CacheError :=
  ({ c with data := c.data.erase key }, none)

/-- `Cache.Keys`: the keys of the map in some order. -/
def Keys (c : Cache) : List String × Option CacheError :=
  (c.data.keys, none)

/-- `Cache.deleteExpired`. The `range` loop visits every entry of the map once
and reads `time.Now()` at each visit: `clock key` is the reading taken when it
visits `key`. The entry is deleted when its expiration time is before that
reading. -/
def deleteExpired (c : Cache) (clock : String → Time) : Cache :=
  { c with data :=
      ⟨c.data.entries.filter (fun e => !Time.Before e.2.expirationTime (clock e.1)),
        c.data.nodupKeys.sublist (List.filter_sublist _)⟩ }

end Cache

/-! ## Fixtures of the test suite -/

/-- `CacheSuite.stringValue` of `cache_test.go`. -/
def stringValue : Value := Value.str "value"

/-- `CacheSuite.sliceValue` of `cache_test.go`. -/
def sliceValue : Value := Value.slice [Value.str "one", Value.str "two", Value.str "three"]

/-- `CacheSuite.mapValue` of `cache_test.go`. -/
def mapValue : Value :=
  Value.dict [("one", Value.str "red"), ("two", Value.str "green"), ("three", Value.str "black")]

/-! ## The value type of the specification -/

mutual
/-- The closed recursive variant of the specification, in its words: `Text`, a
`List` whose elements are all such values, or a `Dict` whose values are all such
values. It is the specification's data model, not a function of `cache.go`. -/
def Value.isSpecValue : Value → Bool
  | Value.str _ => true
  | Value.slice elems => allSpecValues elems
  | Value.dict entries => allSpecEntries entries
  | _ => false
/-- Every element of a list is a value of the specification. -/
def allSpecValues : List Value → Bool
  | [] => true
  | v :: rest => v.isSpecValue && allSpecValues rest
/-- Every value of a dict is a value of the specification. -/
def allSpecEntries : List (String × Value) → Bool
  | [] => true
  | (_, v) :: rest => v.isSpecValue && allSpecEntries rest
end

/-! ## Reading: `Get` -/

theorem unsafeGet_absent (c : Cache) (now : Time) (key : String)
    (h : c.data.lookup key = none) :
    c.unsafeGet now key = (Value.nil, some ErrElementNotFound) := by
  simp [Cache.unsafeGet, h]

theorem unsafeGet_expired (c : Cache) (now : Time) (key : String) (it : item)
    (h : c.data.lookup key = some it) (hexp : it.expirationTime < now) :
    c.unsafeGet now key = (Value.nil, some ErrElementExpired) := by
  simp [Cache.unsafeGet, h, Time.Before, hexp]

theorem unsafeGet_live (c : Cache) (now : Time) (key : String) (it : item)
    (h : c.data.lookup key = some it) (hlive : ¬ it.expirationTime < now) :
    c.unsafeGet now key = (it.value, none) := by
  simp [Cache.unsafeGet, h, Time.Before, hlive]

/-- C1: `Get` is a function of the map and the read time. Its error is
`ErrElementNotFound` exactly when the key is not in the map, `ErrElementExpired`
exactly when the key is in the map with an expiration time strictly before the
read time, every error comes with the nil value, and otherwise the stored value
is returned unchanged; every key of a new cache is not found, and an entry read
at exactly its expiration time is still returned. -/
theorem get_determined_by_map_and_time (c : Cache) (key : String) (t : Time) :
    ((c.Get t key).2 = some ErrElementNotFound ↔ key ∉ c.data) ∧
    ((c.Get t key).2 = some ErrElementExpired ↔
      ∃ it, c.data.lookup key = some it ∧ it.expirationTime < t) ∧
    (∀ e, (c.Get t key).2 = some e → (c.Get t key).1 = Value.nil) ∧
    (∀ it, c.data.lookup key = some it → ¬ it.expirationTime < t →
      c.Get t key = (it.value, none)) ∧
    (∀ cfg, (NewCache cfg).Get t key = (Value.nil, some ErrElementNotFound)) ∧
    (∀ it, c.data.lookup key = some it →
      c.Get it.expirationTime key = (it.value, none)) := by
  refine ⟨?_, ?_, ?_, ?_, ?_, ?_⟩
  · rw [← AList.lookup_eq_none]
    cases h : c.data.lookup key with
    | none => simp [Cache.Get, unsafeGet_absent c t key h]
    | some it =>
      by_cases hexp : it.expirationTime < t
      · simp [Cache.Get, unsafeGet_expired c t key it h hexp]
      · simp [Cache.Get, unsafeGet_live c t key it h hexp]
  · cases h : c.data.lookup key with
    | none => simp [Cache.Get, unsafeGet_absent c t key h]
    | some it =>
      by_cases hexp : it.expirationTime < t
      · simp [Cache.Get, unsafeGet_expired c t key it h hexp, hexp]
      · simp [Cache.Get, unsafeGet_live c t key it h hexp, hexp]
  · intro e
    cases h : c.data.lookup key with
    | none => simp [Cache.Get, unsafeGet_absent c t key h]
    | some it =>
      by_cases hexp : it.expirationTime < t
      · simp [Cache.Get, unsafeGet_expired c t key it h hexp]
      · simp [Cache.Get, unsafeGet_live c t key it h hexp]
  · intro it h hexp
    simpa [Cache.Get] using unsafeGet_live c t key it h hexp
  · intro cfg
    exact unsafeGet_absent (NewCache cfg) t key (AList.lookup_empty key)
  · intro it h
    exact unsafeGet_live c it.expirationTime key it h (lt_irrefl _)

/-! ## Writing: `Set` -/

theorem set_accepted (c : Cache) (now : Time) (key : String) (value : Value) (ttl : Duration)
    (h : checkValueType value = none) :
    c.Set now key value ttl =
      ({ c with data := c.data.insert key ⟨value, Time.Add now ttl⟩ }, none) := by
  simp [Cache.Set, h]

theorem checkValueType_eq_none_iff (value : Value) :
    checkValueType value = none ↔
      (∃ s, value = Value.str s) ∨ (∃ elems, value = Value.slice elems) ∨
        (∃ entries, value = Value.dict entries) := by
  cases value <;> simp [checkValueType]

theorem checkValueType_eq_some (value : Value) (e : CacheError)
    (h : checkValueType value = some e) : e = ErrInvalidValueType := by
  cases value <;> simp_all [checkValueType]

/-- C2: `Set` then `Get` is a round trip. For a value whose shape is text, list
or dict and a ttl above zero, `Set` at `t0` returns no error, and `Get` of the
same key at any `t` with `t0 ≤ t < t0 + ttl` returns exactly that value and no
error. -/
theorem set_get_roundtrip (c : Cache) (key : String) (value : Value) (ttl : Duration)
    (t0 t : Time)
    (hshape : (∃ s, value = Value.str s) ∨ (∃ elems, value = Value.slice elems) ∨
      (∃ entries, value = Value.dict entries))
    (_httl : 0 < ttl) (_h0 : t0 ≤ t) (h1 : t < t0 + ttl) :
    (c.Set t0 key value ttl).2 = none ∧
    (c.Set t0 key value ttl).1.Get t key = (value, none) := by
  have hv : checkValueType value = none := (checkValueType_eq_none_iff value).2 hshape
  rw [set_accepted c t0 key value ttl hv]
  refine ⟨rfl, ?_⟩
  have hlook : (c.data.insert key (⟨value, Time.Add t0 ttl⟩ : item)).lookup key
      = some ⟨value, Time.Add t0 ttl⟩ := AList.lookup_insert _
  have hlive : ¬ (Time.Add t0 ttl) < t := by
    have h2 : t < Time.Add t0 ttl := h1
    exact not_lt.2 (le_of_lt h2)
  exact unsafeGet_live _ t key ⟨value, Time.Add t0 ttl⟩ hlook hlive

/-- Witness of C2: the string "value" set at time 0 for 50 ns is read back at time 49. -/
theorem set_get_roundtrip_witness :
    ((NewCache ⟨100⟩).Set 0 "key" (Value.str "value") 50).2 = none ∧
    ((NewCache ⟨100⟩).Set 0 "key" (Value.str "value") 50).1.Get 49 "key"
      = (Value.str "value", none) :=
  set_get_roundtrip (NewCache ⟨100⟩) "key" (Value.str "value") 50 0 49
    (Or.inl ⟨"value", rfl⟩) (by decide) (by decide) (by decide)

/-- C3: a zero ttl must expire at once, as `TestZeroTtl` requires of a `Get`
that follows `Set(key, value, 0)` with no wait; the code misses it when the clock
still shows the reading `Set` took. A value set at time 0 with ttl 0 and read at
the same reading 0 is returned with no error instead of nil and
`ErrElementExpired`, so the code does not meet "for every ttl ≤ 0 and every read
time t ≥ t0 the read is `ErrElementExpired`". -/
theorem zero_ttl_read_at_set_instant :
    ((NewCache ⟨100⟩).Set 0 "key" (Value.str "value") 0).1.Get 0 "key"
      = (Value.str "value", none) ∧
    ¬ (∀ (c : Cache) (key : String) (value : Value) (ttl : Duration) (t0 t : Time),
        ((∃ s, value = Value.str s) ∨ (∃ elems, value = Value.slice elems) ∨
          (∃ entries, value = Value.dict entries)) →
        ttl ≤ 0 → t0 ≤ t →
        (c.Set t0 key value ttl).1.Get t key = (Value.nil, some ErrElementExpired)) := by
  refine ⟨rfl, ?_⟩
  intro h
  have h1 := h (NewCache ⟨100⟩) "key" (Value.str "value") 0 0 0
    (Or.inl ⟨"value", rfl⟩) (le_refl _) (le_refl _)
  have h2 : ((NewCache ⟨100⟩).Set 0 "key" (Value.str "value") 0).1.Get 0 "key"
      = (Value.str "value", none) := rfl
  rw [h2] at h1
  simp at h1

/-- Where the code does report a non-positive ttl as expired: for a value of a
supported shape and ttl ≤ 0, `Set` at `t0` succeeds and a `Get` at `t ≥ t0`
returns nil and `ErrElementExpired` whenever the ttl is negative or the clock
has moved past `t0`. -/
theorem nonpositive_ttl_expired_after_tick (c : Cache) (key : String) (value : Value)
    (ttl : Duration) (t0 t : Time)
    (hshape : (∃ s, value = Value.str s) ∨ (∃ elems, value = Value.slice elems) ∨
      (∃ entries, value = Value.dict entries))
    (httl : ttl ≤ 0) (h0 : t0 ≤ t) (hpast : ttl < 0 ∨ t0 < t) :
    (c.Set t0 key value ttl).2 = none ∧
    (c.Set t0 key value ttl).1.Get t key = (Value.nil, some ErrElementExpired) := by
  have hv : checkValueType value = none := (checkValueType_eq_none_iff value).2 hshape
  rw [set_accepted c t0 key value ttl hv]
  refine ⟨rfl, ?_⟩
  have hlook : (c.data.insert key (⟨value, Time.Add t0 ttl⟩ : item)).lookup key
      = some ⟨value, Time.Add t0 ttl⟩ := AList.lookup_insert _
  have hexp : Time.Add t0 ttl < t := by
    show t0 + ttl < t
    rcases hpast with h | h
    · exact lt_of_lt_of_le (by linarith) h0
    · exact lt_of_le_of_lt (by linarith) h
  exact unsafeGet_expired _ t key ⟨value, Time.Add t0 ttl⟩ hlook hexp

/-- C4: `Set` is atomic on rejection. For a value that is not text, list or
dict, `Set` returns `ErrInvalidValueType` and the store it leaves is the store
it was given; in particular the entry under the key, if any, is the same. -/
theorem set_rejected_leaves_store (c : Cache) (t0 : Time) (key : String) (value : Value)
    (ttl : Duration)
    (hshape : (∀ s, value ≠ Value.str s) ∧ (∀ elems, value ≠ Value.slice elems) ∧
      (∀ entries, value ≠ Value.dict entries)) :
    c.Set t0 key value ttl = (c, some ErrInvalidValueType) ∧
    (c.Set t0 key value ttl).1.data.lookup key = c.data.lookup key := by
  obtain ⟨h1, h2, h3⟩ := hshape
  have hv : checkValueType value = some ErrInvalidValueType := by
    cases value <;> simp_all [checkValueType]
  have hset : c.Set t0 key value ttl = (c, some ErrInvalidValueType) := by
    simp [Cache.Set, hv]
  exact ⟨hset, by rw [hset]⟩

/-- Witness of C4: the number 10 is rejected and the entry already stored under
the key is kept. -/
theorem set_rejected_leaves_store_witness :
    (((NewCache ⟨100⟩).Set 0 "key" (Value.str "value") 50).1.Set 7 "key" (Value.int 10) 50
      = (((NewCache ⟨100⟩).Set 0 "key" (Value.str "value") 50).1, some ErrInvalidValueType)) ∧
    (((NewCache ⟨100⟩).Set 0 "key" (Value.str "value") 50).1.Set 7 "key" (Value.int 10)
        50).1.data.lookup "key"
      = ((NewCache ⟨100⟩).Set 0 "key" (Value.str "value") 50).1.data.lookup "key" :=
  set_rejected_leaves_store ((NewCache ⟨100⟩).Set 0 "key" (Value.str "value") 50).1 7 "key"
    (Value.int 10) 50 ⟨(fun _ h => nomatch h), (fun _ h => nomatch h), (fun _ h => nomatch h)⟩

/-! ## What `Set` validates -/

theorem isSpecValue_checkValueType (value : Value) (h : value.isSpecValue = true) :
    checkValueType value = none := by
  cases value <;> simp_all [checkValueType, Value.isSpecValue]

theorem lookup_set_of_lookup (c : Cache) (t0 : Time) (key : String) (value : Value)
    (ttl : Duration) (k : String) (it : item)
    (h : (c.Set t0 key value ttl).1.data.lookup k = some it) :
    (checkValueType value = none ∧ k = key ∧ it = ⟨value, Time.Add t0 ttl⟩) ∨
      c.data.lookup k = some it := by
  cases hv : checkValueType value with
  | some e =>
    right
    simpa [Cache.Set, hv] using h
  | none =>
    rw [set_accepted c t0 key value ttl hv] at h
    by_cases hk : k = key
    · subst hk
      left
      have h2 : (c.data.insert k (⟨value, Time.Add t0 ttl⟩ : item)).lookup k
          = some ⟨value, Time.Add t0 ttl⟩ := AList.lookup_insert _
      have h3 : (c.data.insert k (⟨value, Time.Add t0 ttl⟩ : item)).lookup k = some it := h
      rw [h2] at h3
      exact ⟨rfl, rfl, (Option.some.inj h3).symm⟩
    · right
      have h2 : (c.data.insert key (⟨value, Time.Add t0 ttl⟩ : item)).lookup k
          = c.data.lookup k := AList.lookup_insert_ne hk
      have h3 : (c.data.insert key (⟨value, Time.Add t0 ttl⟩ : item)).lookup k = some it := h
      rw [h2] at h3
      exact h3

theorem lookup_remove_of_lookup (c : Cache) (key : String) (k : String) (it : item)
    (h : (c.Remove key).1.data.lookup k = some it) :
    k ≠ key ∧ c.data.lookup k = some it := by
  have h1 : (c.data.erase key).lookup k = some it := h
  by_cases hk : k = key
  · subst hk
    rw [AList.lookup_erase] at h1
    cases h1
  · rw [AList.lookup_erase_ne hk] at h1
    exact ⟨hk, h1⟩

/-- C5 as stated fails: the list `[10]`, whose one element is a bare number, is
not a value of the specification's variant, yet `Set` accepts it and `Get`
hands it back with the number inside. -/
theorem set_accepts_list_of_number :
    (Value.slice [Value.int 10]).isSpecValue = false ∧
    ((NewCache ⟨100⟩).Set 0 "key" (Value.slice [Value.int 10]) 50).2 = none ∧
    ((NewCache ⟨100⟩).Set 0 "key" (Value.slice [Value.int 10]) 50).1.Get 0 "key"
      = (Value.slice [Value.int 10], none) ∧
    ¬ (∀ (c : Cache) (t0 : Time) (key : String) (value : Value) (ttl : Duration),
        value.isSpecValue = false →
        (c.Set t0 key value ttl).2 = some ErrInvalidValueType) := by
  refine ⟨by decide, rfl, rfl, ?_⟩
  intro h
  have h1 := h (NewCache ⟨100⟩) 0 "key" (Value.slice [Value.int 10]) 50 (by decide)
  have h2 : ((NewCache ⟨100⟩).Set 0 "key" (Value.slice [Value.int 10]) 50).2 = none := rfl
  rw [h2] at h1
  cases h1

/-- C5, amended: `Set` validates the top-level shape only. It succeeds exactly
when the value is a string, a `[]interface{}` or a `map[string]interface{}`,
whatever the elements are, and fails with `ErrInvalidValueType` exactly
otherwise; every value of the specification's variant is accepted; and the
property "every stored value has one of the three top-level shapes" holds of a
new cache and is kept by `Set` and by `Remove`. -/
theorem set_validates_top_level_shape (c : Cache) (t0 : Time) (key : String) (value : Value)
    (ttl : Duration) :
    ((c.Set t0 key value ttl).2 = none ↔
      ((∃ s, value = Value.str s) ∨ (∃ elems, value = Value.slice elems) ∨
        (∃ entries, value = Value.dict entries))) ∧
    ((c.Set t0 key value ttl).2 = some ErrInvalidValueType ↔
      ¬ ((∃ s, value = Value.str s) ∨ (∃ elems, value = Value.slice elems) ∨
        (∃ entries, value = Value.dict entries))) ∧
    (value.isSpecValue = true → (c.Set t0 key value ttl).2 = none) ∧
    (∀ cfg k, (NewCache cfg).data.lookup k = none) ∧
    ((∀ k it, c.data.lookup k = some it → checkValueType it.value = none) →
      (∀ k it, (c.Set t0 key value ttl).1.data.lookup k = some it →
        checkValueType it.value = none) ∧
      (∀ k it, (c.Remove key).1.data.lookup k = some it →
        checkValueType it.value = none)) := by
  have hset : (c.Set t0 key value ttl).2 = checkValueType value := by
    cases hv : checkValueType value <;> simp [Cache.Set, hv]
  refine ⟨?_, ?_, ?_, ?_, ?_⟩
  · rw [hset]
    exact checkValueType_eq_none_iff value
  · rw [hset, ← checkValueType_eq_none_iff value]
    cases hv : checkValueType value with
    | none => simp
    | some e => simp [checkValueType_eq_some value e hv]
  · intro h
    rw [hset]
    exact isSpecValue_checkValueType value h
  · intro cfg k
    exact AList.lookup_empty k
  · intro hinv
    refine ⟨?_, ?_⟩
    · intro k it h
      rcases lookup_set_of_lookup c t0 key value ttl k it h with ⟨hv, _, hit⟩ | h'
      · rw [hit]
        exact hv
      · exact hinv k it h'
    · intro k it h
      exact hinv k it (lookup_remove_of_lookup c key k it h).2

/-! ## Sub-access: `GetListElem` and `GetMapElemValue` -/

theorem sliceIndex_in_range (s : List Value) (i : Int) (h0 : 0 ≤ i)
    (h1 : i < (s.length : Int)) :
    ∃ v, s.get? i.toNat = some v ∧ sliceIndex s i = Exec.ret v := by
  have hlt : i.toNat < s.length := by
    have h2 : ((i.toNat : Nat) : Int) = i := Int.toNat_of_nonneg h0
    have h3 : ((i.toNat : Nat) : Int) < (s.length : Int) := by rw [h2]; exact h1
    exact_mod_cast h3
  refine ⟨s.get ⟨i.toNat, hlt⟩, List.get?_eq_get hlt, ?_⟩
  have hneg : ¬ i < 0 := not_lt.2 h0
  simp only [sliceIndex, if_neg hneg]
  rw [List.get?_eq_get hlt]

theorem mapIndex_eq_none_iff (m : List (String × Value)) (k : String) :
    mapIndex m k = none ↔ k ∉ m.map Prod.fst := by
  induction m with
  | nil => simp [mapIndex]
  | cons p rest ih =>
    obtain ⟨k', v⟩ := p
    by_cases hk : k = k'
    · simp [mapIndex, hk]
    · simp [mapIndex, hk, ih]

theorem mapIndex_of_mem (m : List (String × Value)) (k : String) (v : Value)
    (hmem : (k, v) ∈ m) (hnodup : (m.map Prod.fst).Nodup) : mapIndex m k = some v := by
  induction m with
  | nil => cases hmem
  | cons p rest ih =>
    obtain ⟨k', v'⟩ := p
    have hnd : k' ∉ rest.map Prod.fst ∧ (rest.map Prod.fst).Nodup := by
      simpa using hnodup
    rcases List.mem_cons.1 hmem with heq | hrest
    · have hk : k = k' := (Prod.mk.inj heq).1
      have hv : v = v' := (Prod.mk.inj heq).2
      simp [mapIndex, hk, hv]
    · have hk : k ≠ k' := by
        intro hk
        apply hnd.1
        rw [← hk]
        exact List.mem_map.2 ⟨(k, v), hrest, rfl⟩
      simp [mapIndex, hk, ih hrest hnd.2]

/-- C6: `GetListElem` indexes exactly the valid range. For a key holding an
unexpired list of length n: when `0 ≤ index < n` the call returns the element
at that position and no error; when `index < 0` or `index ≥ n` it returns nil
and `ErrIndexOutOfRange`; it never reaches the index expression outside the
list (no panic); on the empty list every index is out of range. -/
theorem getListElem_valid_range (c : Cache) (t : Time) (key : String) (elems : List Value)
    (exp : Time) (index : Int)
    (hlook : c.data.lookup key = some ⟨Value.slice elems, exp⟩) (hlive : ¬ exp < t) :
    (0 ≤ index ∧ index < (elems.length : Int) →
      ∃ v, elems.get? index.toNat = some v ∧
        c.GetListElem t key index = Exec.ret (v, none)) ∧
    (index < 0 ∨ (elems.length : Int) ≤ index →
      c.GetListElem t key index = Exec.ret (Value.nil, some ErrIndexOutOfRange)) ∧
    c.GetListElem t key index ≠ Exec.panic ∧
    (elems = [] →
      c.GetListElem t key index = Exec.ret (Value.nil, some ErrIndexOutOfRange)) := by
  have hget : c.unsafeGet t key = (Value.slice elems, none) :=
    unsafeGet_live c t key ⟨Value.slice elems, exp⟩ hlook hlive
  have hin : 0 ≤ index ∧ index < (elems.length : Int) →
      ∃ v, elems.get? index.toNat = some v ∧
        c.GetListElem t key index = Exec.ret (v, none) := by
    rintro ⟨h0, h1⟩
    obtain ⟨v, hv, hidx⟩ := sliceIndex_in_range elems index h0 h1
    refine ⟨v, hv, ?_⟩
    have hguard : ¬ (index < 0 ∨ (elems.length : Int) ≤ index) := by
      rintro (h | h)
      · exact absurd h0 (not_le.2 h)
      · exact absurd h1 (not_lt.2 h)
    simp only [Cache.GetListElem, hget, hidx]
    rw [if_neg hguard]
  have hout : index < 0 ∨ (elems.length : Int) ≤ index →
      c.GetListElem t key index = Exec.ret (Value.nil, some ErrIndexOutOfRange) := by
    intro h
    simp only [Cache.GetListElem, hget]
    rw [if_pos h]
  refine ⟨hin, hout, ?_, ?_⟩
  · by_cases h : index < 0 ∨ (elems.length : Int) ≤ index
    · rw [hout h]
      exact fun hc => Exec.noConfusion hc
    · have h' : 0 ≤ index ∧ index < (elems.length : Int) := by
        constructor
        · exact not_lt.1 (fun hc => h (Or.inl hc))
        · exact not_le.1 (fun hc => h (Or.inr hc))
      obtain ⟨v, _, hv⟩ := hin h'
      rw [hv]
      exact fun hc => Exec.noConfusion hc
  · intro hnil
    apply hout
    subst hnil
    by_cases h : index < 0
    · exact Or.inl h
    · exact Or.inr (by simpa using not_lt.1 h)

/-- Witness of C6: on the three-element list of the test suite, index 1 is
"two" and index 3 is out of range. -/
theorem getListElem_valid_range_witness :
    (∃ v, [Value.str "one", Value.str "two", Value.str "three"].get? (1 : Int).toNat = some v ∧
      ((NewCache ⟨100⟩).Set 0 "key" sliceValue 50).1.GetListElem 10 "key" 1
        = Exec.ret (v, none)) ∧
    ((NewCache ⟨100⟩).Set 0 "key" sliceValue 50).1.GetListElem 10 "key" 3
      = Exec.ret (Value.nil, some ErrIndexOutOfRange) :=
  ⟨(getListElem_valid_range ((NewCache ⟨100⟩).Set 0 "key" sliceValue 50).1 10 "key"
      [Value.str "one", Value.str "two", Value.str "three"] 50 1 rfl (by decide)).1
      ⟨by decide, by decide⟩,
   (getListElem_valid_range ((NewCache ⟨100⟩).Set 0 "key" sliceValue 50).1 10 "key"
      [Value.str "one", Value.str "two", Value.str "three"] 50 3 rfl (by decide)).2.1
      (Or.inr (by decide))⟩

/-- C7: `GetMapElemValue` succeeds iff the map key is present. For a key holding
an unexpired dict: the call returns no error exactly when `mapKey` is one of the
dict's keys; it then returns the value the dict holds under `mapKey`; and when
`mapKey` is not a key it returns nil and `ErrMapElementNotFound`. -/
theorem getMapElemValue_iff_present (c : Cache) (t : Time) (key : String)
    (entries : List (String × Value)) (exp : Time) (mapKey : String)
    (hlook : c.data.lookup key = some ⟨Value.dict entries, exp⟩) (hlive : ¬ exp < t) :
    ((c.GetMapElemValue t key mapKey).2 = none ↔ mapKey ∈ entries.map Prod.fst) ∧
    (∀ v, mapIndex entries mapKey = some v → c.GetMapElemValue t key mapKey = (v, none)) ∧
    (∀ v, (mapKey, v) ∈ entries → (entries.map Prod.fst).Nodup →
      c.GetMapElemValue t key mapKey = (v, none)) ∧
    (mapKey ∉ entries.map Prod.fst →
      c.GetMapElemValue t key mapKey = (Value.nil, some ErrMapElementNotFound)) := by
  have hget : c.unsafeGet t key = (Value.dict entries, none) :=
    unsafeGet_live c t key ⟨Value.dict entries, exp⟩ hlook hlive
  have hsome : ∀ v, mapIndex entries mapKey = some v →
      c.GetMapElemValue t key mapKey = (v, none) := by
    intro v hv
    simp only [Cache.GetMapElemValue, hget, hv]
  have hnone : mapKey ∉ entries.map Prod.fst →
      c.GetMapElemValue t key mapKey = (Value.nil, some ErrMapElementNotFound) := by
    intro h
    have hv := (mapIndex_eq_none_iff entries mapKey).2 h
    simp only [Cache.GetMapElemValue, hget, hv]
  refine ⟨?_, hsome, ?_, hnone⟩
  · constructor
    · intro h
      by_contra hmem
      rw [hnone hmem] at h
      cases h
    · intro hmem
      cases hv : mapIndex entries mapKey with
      | none => exact absurd hmem ((mapIndex_eq_none_iff entries mapKey).1 hv)
      | some v => rw [hsome v hv]
  · intro v hmem hnodup
    exact hsome v (mapIndex_of_mem entries mapKey v hmem hnodup)

/-- Witness of C7: on the dict of the test suite, "two" maps to "green" and
"someKey" is not found. -/
theorem getMapElemValue_iff_present_witness :
    ((NewCache ⟨100⟩).Set 0 "key" mapValue 50).1.GetMapElemValue 10 "key" "two"
      = (Value.str "green", none) ∧
    ((NewCache ⟨100⟩).Set 0 "key" mapValue 50).1.GetMapElemValue 10 "key" "someKey"
      = (Value.nil, some ErrMapElementNotFound) :=
  ⟨(getMapElemValue_iff_present ((NewCache ⟨100⟩).Set 0 "key" mapValue 50).1 10 "key"
      [("one", Value.str "red"), ("two", Value.str "green"), ("three", Value.str "black")]
      50 "two" rfl (by decide)).2.1 (Value.str "green") rfl,
   (getMapElemValue_iff_present ((NewCache ⟨100⟩).Set 0 "key" mapValue 50).1 10 "key"
      [("one", Value.str "red"), ("two", Value.str "green"), ("three", Value.str "black")]
      50 "someKey" rfl (by decide)).2.2.2 (by decide)⟩

/-- C8: sub-access errors have a fixed precedence. Whenever `Get` fails, its
error is `ErrElementNotFound` or `ErrElementExpired` and both `GetListElem` and
`GetMapElemValue` return nil with that same error, for every index and map key.
Whenever `Get` succeeds with a value that is not a list, `GetListElem` returns
nil and `ErrNotSliceValue` for every index; with a value that is not a dict,
`GetMapElemValue` returns nil and `ErrNotMapValue` for every map key. -/
theorem sub_access_error_precedence (c : Cache) (t : Time) (key : String) (index : Int)
    (mapKey : String) :
    (∀ e, (c.Get t key).2 = some e →
      (e = ErrElementNotFound ∨ e = ErrElementExpired) ∧
      c.GetListElem t key index = Exec.ret (Value.nil, some e) ∧
      c.GetMapElemValue t key mapKey = (Value.nil, some e)) ∧
    ((c.Get t key).2 = none → (∀ elems, (c.Get t key).1 ≠ Value.slice elems) →
      c.GetListElem t key index = Exec.ret (Value.nil, some ErrNotSliceValue)) ∧
    ((c.Get t key).2 = none → (∀ entries, (c.Get t key).1 ≠ Value.dict entries) →
      c.GetMapElemValue t key mapKey = (Value.nil, some ErrNotMapValue)) := by
  cases h : c.data.lookup key with
  | none =>
    have hget := unsafeGet_absent c t key h
    simp [Cache.Get, Cache.GetListElem, Cache.GetMapElemValue, hget]
  | some it =>
    by_cases hexp : it.expirationTime < t
    · have hget := unsafeGet_expired c t key it h hexp
      simp [Cache.Get, Cache.GetListElem, Cache.GetMapElemValue, hget]
    · have hget := unsafeGet_live c t key it h hexp
      refine ⟨?_, ?_, ?_⟩
      · intro e he
        simp [Cache.Get, hget] at he
      · intro _ hns
        simp only [Cache.Get, hget] at hns
        cases hv : it.value with
        | slice elems => exact absurd hv (hns elems)
        | _ => simp only [Cache.GetListElem, hget, hv]
      · intro _ hnm
        simp only [Cache.Get, hget] at hnm
        cases hv : it.value with
        | dict entries => exact absurd hv (hnm entries)
        | _ => simp only [Cache.GetMapElemValue, hget, hv]

/-! ## `Remove` -/

/-- C9: `Remove` makes the key absent. After `Remove(key)` the list returned by
`Keys` does not contain the key and `Get` of the key returns nil and
`ErrElementNotFound` at every time, whatever the store held under the key. -/
theorem remove_makes_key_absent (c : Cache) (key : String) (t : Time) :
    key ∉ (c.Remove key).1.Keys.1 ∧
    (c.Remove key).1.Keys.2 = none ∧
    (c.Remove key).1.Get t key = (Value.nil, some ErrElementNotFound) := by
  have hlook : (c.Remove key).1.data.lookup key = none := AList.lookup_erase key c.data
  refine ⟨?_, rfl, unsafeGet_absent _ t key hlook⟩
  have hnot : key ∉ (c.Remove key).1.data := AList.lookup_eq_none.1 hlook
  exact fun hmem => hnot (AList.mem_keys.2 hmem)

/-- C10: `Remove` never returns an error, leaves the store exactly as it was
when the key is not in the map, and applied twice gives the same store as
applied once. -/
theorem remove_idempotent (c : Cache) (key : String) :
    (c.Remove key).2 = none ∧
    (key ∉ c.data → (c.Remove key).1 = c) ∧
    ((c.Remove key).1.Remove key).1 = (c.Remove key).1 := by
  have habsent : ∀ d : Cache, key ∉ d.data → (d.Remove key).1 = d := by
    intro d hd
    have hk : key ∉ d.data.entries.keys := hd
    have he : d.data.erase key = d.data :=
      AList.ext (List.kerase_of_not_mem_keys hk)
    show ({ d with data := d.data.erase key } : Cache) = d
    rw [he]
  refine ⟨rfl, habsent c, ?_⟩
  apply habsent
  exact AList.lookup_eq_none.1 (AList.lookup_erase key c.data)

/-! ## Lookups after each operation -/

theorem lookup_deleteExpired (c : Cache) (clock : String → Time) (k : String) (it : item) :
    (c.deleteExpired clock).data.lookup k = some it ↔
      c.data.lookup k = some it ∧ ¬ it.expirationTime < clock k := by
  have h1 : (c.deleteExpired clock).data.lookup k = some it ↔
      (⟨k, it⟩ : Sigma fun _ : String => item) ∈ (c.deleteExpired clock).data.entries :=
    AList.mem_lookup_iff
  have h2 : c.data.lookup k = some it ↔
      (⟨k, it⟩ : Sigma fun _ : String => item) ∈ c.data.entries :=
    AList.mem_lookup_iff
  rw [h1, h2]
  simp [Cache.deleteExpired, Time.Before, List.mem_filter]

theorem lookup_set_ne (c : Cache) (t0 : Time) (key : String) (value : Value)
    (ttl : Duration) (k : String) (hk : k ≠ key) :
    (c.Set t0 key value ttl).1.data.lookup k = c.data.lookup k := by
  cases hv : checkValueType value with
  | some e => simp [Cache.Set, hv]
  | none =>
    rw [set_accepted c t0 key value ttl hv]
    exact AList.lookup_insert_ne hk

theorem lookup_set_self (c : Cache) (t0 : Time) (key : String) (value : Value)
    (ttl : Duration) (hv : checkValueType value = none) :
    (c.Set t0 key value ttl).1.data.lookup key = some ⟨value, Time.Add t0 ttl⟩ := by
  rw [set_accepted c t0 key value ttl hv]
  exact AList.lookup_insert _

theorem lookup_remove_ne (c : Cache) (key : String) (k : String) (hk : k ≠ key) :
    (c.Remove key).1.data.lookup k = c.data.lookup k :=
  AList.lookup_erase_ne hk

theorem unsafeGet_congr (c d : Cache) (t : Time) (k : String)
    (h : c.data.lookup k = d.data.lookup k) : c.unsafeGet t k = d.unsafeGet t k := by
  simp only [Cache.unsafeGet, h]

theorem getListElem_congr (c d : Cache) (t : Time) (k : String) (index : Int)
    (h : c.data.lookup k = d.data.lookup k) :
    c.GetListElem t k index = d.GetListElem t k index := by
  simp only [Cache.GetListElem, unsafeGet_congr c d t k h]

theorem getMapElemValue_congr (c d : Cache) (t : Time) (k : String) (mapKey : String)
    (h : c.data.lookup k = d.data.lookup k) :
    c.GetMapElemValue t k mapKey = d.GetMapElemValue t k mapKey := by
  simp only [Cache.GetMapElemValue, unsafeGet_congr c d t k h]

/-! ## `Keys` -/

/-- C11: `Keys` reports physical presence. It returns no error; its result
holds each key of the map exactly once and no other string, so its length is
the number of entries; a key whose `Get` fails with `ErrElementExpired` is in
the result; and a key just set with a supported value is listed whatever the
ttl, also when a `Get` at a later time reports it expired. -/
theorem keys_physical_presence (c : Cache) (t : Time) :
    c.Keys.2 = none ∧
    (∀ k, k ∈ c.Keys.1 ↔ k ∈ c.data) ∧
    (∀ k, k ∈ c.data → c.Keys.1.count k = 1) ∧
    (∀ k, k ∉ c.data → c.Keys.1.count k = 0) ∧
    c.Keys.1.length = c.data.entries.length ∧
    (∀ k, (c.Get t k).2 = some ErrElementExpired → k ∈ c.Keys.1) ∧
    (∀ (t0 : Time) (key : String) (value : Value) (ttl : Duration),
      checkValueType value = none → Time.Add t0 ttl < t →
        key ∈ (c.Set t0 key value ttl).1.Keys.1 ∧
        (c.Set t0 key value ttl).1.Get t key = (Value.nil, some ErrElementExpired)) := by
  refine ⟨rfl, ?_, ?_, ?_, ?_, ?_, ?_⟩
  · intro k
    exact AList.mem_keys.symm
  · intro k hk
    exact List.count_eq_one_of_mem c.data.keys_nodup (AList.mem_keys.1 hk)
  · intro k hk
    exact List.count_eq_zero_of_not_mem (fun hmem => hk (AList.mem_keys.2 hmem))
  · show c.data.keys.length = c.data.entries.length
    simp [AList.keys, List.keys]
  · intro k hexp
    cases h : c.data.lookup k with
    | none =>
      rw [show c.Get t k = c.unsafeGet t k from rfl, unsafeGet_absent c t k h] at hexp
      cases hexp
    | some it =>
      have hmem : k ∈ c.data := by
        rw [← AList.lookup_isSome, h]
        rfl
      exact AList.mem_keys.1 hmem
  · intro t0 key value ttl hv hpast
    have hlook := lookup_set_self c t0 key value ttl hv
    refine ⟨?_, unsafeGet_expired _ t key ⟨value, Time.Add t0 ttl⟩ hlook hpast⟩
    have hmem : key ∈ (c.Set t0 key value ttl).1.data := by
      rw [← AList.lookup_isSome, hlook]
      rfl
    exact AList.mem_keys.1 hmem

/-! ## The sweep: `deleteExpired` -/

theorem get_success_lookup (c : Cache) (t : Time) (k : String)
    (h : (c.Get t k).2 = none) :
    ∃ it, c.data.lookup k = some it ∧ ¬ it.expirationTime < t ∧
      c.Get t k = (it.value, none) := by
  cases hl : c.data.lookup k with
  | none =>
    rw [show c.Get t k = c.unsafeGet t k from rfl, unsafeGet_absent c t k hl] at h
    cases h
  | some it =>
    by_cases hexp : it.expirationTime < t
    · rw [show c.Get t k = c.unsafeGet t k from rfl, unsafeGet_expired c t k it hl hexp] at h
      cases h
    · exact ⟨it, rfl, hexp, unsafeGet_live c t k it hl hexp⟩

theorem lookup_deleteExpired_eq_none (c : Cache) (clock : String → Time) (k : String)
    (it : item) (h : c.data.lookup k = some it) (hexp : it.expirationTime < clock k) :
    (c.deleteExpired clock).data.lookup k = none := by
  cases hl : (c.deleteExpired clock).data.lookup k with
  | none => rfl
  | some it2 =>
    have h2 := (lookup_deleteExpired c clock k it2).1 hl
    rw [h] at h2
    have heq : it = it2 := Option.some.inj h2.1
    rw [← heq] at h2
    exact absurd hexp h2.2

/-- C12: one sweep removes exactly the expired entries. After `deleteExpired`
with the clock reading `now` throughout, a key holds an entry exactly when it
held that same entry (same value, same expiration time) before and the entry's
expiration time is not before `now`; no entry left has an expiration time
before `now`; the configuration is untouched; and a second sweep at the same
`now` leaves the store as the first one left it. -/
theorem deleteExpired_removes_exactly_expired (c : Cache) (now : Time) :
    (∀ k it, (c.deleteExpired (fun _ => now)).data.lookup k = some it ↔
      c.data.lookup k = some it ∧ ¬ it.expirationTime < now) ∧
    (∀ k it, (c.deleteExpired (fun _ => now)).data.lookup k = some it →
      ¬ it.expirationTime < now) ∧
    (∀ k it, c.data.lookup k = some it → it.expirationTime < now →
      k ∉ (c.deleteExpired (fun _ => now)).data) ∧
    (c.deleteExpired (fun _ => now)).cfg = c.cfg ∧
    (c.deleteExpired (fun _ => now)).deleteExpired (fun _ => now)
      = c.deleteExpired (fun _ => now) := by
  refine ⟨?_, ?_, ?_, rfl, ?_⟩
  · intro k it
    exact lookup_deleteExpired c (fun _ => now) k it
  · intro k it h
    exact ((lookup_deleteExpired c (fun _ => now) k it).1 h).2
  · intro k it h hexp
    exact AList.lookup_eq_none.1
      (lookup_deleteExpired_eq_none c (fun _ => now) k it h hexp)
  · have he : ((c.deleteExpired (fun _ => now)).deleteExpired (fun _ => now)).data
        = (c.deleteExpired (fun _ => now)).data := by
      apply AList.ext
      show List.filter _ (List.filter _ c.data.entries) = List.filter _ c.data.entries
      rw [List.filter_eq_self]
      intro e he
      exact (List.mem_filter.1 he).2
    show ({ c.deleteExpired (fun _ => now) with
      data := ((c.deleteExpired (fun _ => now)).deleteExpired (fun _ => now)).data } : Cache)
        = c.deleteExpired (fun _ => now)
    rw [he]

/-- C13: physical removal turns "expired" into "not found" and changes nothing
else a reader can see. For a key set at `t0` with `ttl` and a sweep at a time
`s` after `t0 + ttl`: at any `t ≥ s` a `Get` without the sweep reports
`ErrElementExpired`, after the sweep it reports `ErrElementNotFound`, and
`Keys` no longer lists the key; and on any store, a `Get` at `t ≥ s` that
succeeds without the sweep returns the same result after it. -/
theorem sweep_turns_expired_into_not_found (c : Cache) (key : String) (value : Value)
    (ttl : Duration) (t0 s t : Time)
    (hshape : (∃ str, value = Value.str str) ∨ (∃ elems, value = Value.slice elems) ∨
      (∃ entries, value = Value.dict entries))
    (hs : t0 + ttl < s) (ht : s ≤ t) :
    (c.Set t0 key value ttl).1.Get t key = (Value.nil, some ErrElementExpired) ∧
    ((c.Set t0 key value ttl).1.deleteExpired (fun _ => s)).Get t key
      = (Value.nil, some ErrElementNotFound) ∧
    key ∉ ((c.Set t0 key value ttl).1.deleteExpired (fun _ => s)).Keys.1 ∧
    (∀ (d : Cache) (k : String), (d.Get t k).2 = none →
      (d.deleteExpired (fun _ => s)).Get t k = d.Get t k) := by
  have hv : checkValueType value = none := (checkValueType_eq_none_iff value).2 hshape
  have hlook := lookup_set_self c t0 key value ttl hv
  have hexps : (⟨value, Time.Add t0 ttl⟩ : item).expirationTime < s := hs
  have hexpt : (⟨value, Time.Add t0 ttl⟩ : item).expirationTime < t := lt_of_lt_of_le hs ht
  have hgone := lookup_deleteExpired_eq_none (c.Set t0 key value ttl).1 (fun _ => s) key
    ⟨value, Time.Add t0 ttl⟩ hlook hexps
  refine ⟨unsafeGet_expired _ t key _ hlook hexpt, unsafeGet_absent _ t key hgone, ?_, ?_⟩
  · intro hmem
    exact (AList.lookup_eq_none.1 hgone) (AList.mem_keys.2 hmem)
  · intro d k hok
    obtain ⟨it, hl, hlive, hget⟩ := get_success_lookup d t k hok
    have hlives : ¬ it.expirationTime < s := fun h => hlive (lt_of_lt_of_le h ht)
    have hl2 := (lookup_deleteExpired d (fun _ => s) k it).2 ⟨hl, hlives⟩
    rw [hget]
    exact unsafeGet_live _ t k it hl2 hlive

/-- Witness of C13: the scenario of `TestCleanByTtl`, in milliseconds: ttl 50
set at time 0, a sweep at time 100, a read at time 110. -/
theorem sweep_turns_expired_into_not_found_witness :
    ((NewCache ⟨100⟩).Set 0 "key" stringValue 50).1.Get 110 "key"
      = (Value.nil, some ErrElementExpired) ∧
    (((NewCache ⟨100⟩).Set 0 "key" stringValue 50).1.deleteExpired (fun _ => 100)).Get 110 "key"
      = (Value.nil, some ErrElementNotFound) ∧
    "key" ∉ (((NewCache ⟨100⟩).Set 0 "key" stringValue 50).1.deleteExpired
      (fun _ => 100)).Keys.1 ∧
    (∀ (d : Cache) (k : String), (d.Get 110 k).2 = none →
      (d.deleteExpired (fun _ => 100)).Get 110 k = d.Get 110 k) :=
  sweep_turns_expired_into_not_found (NewCache ⟨100⟩) "key" stringValue 50 0 100 110
    (Or.inl ⟨"value", rfl⟩) (by decide) (by decide)

/-! ## Setting a key again -/

theorem set_set (c : Cache) (t1 t2 : Time) (key : String) (v1 v2 : Value)
    (ttl1 ttl2 : Duration) (hv1 : checkValueType v1 = none) (hv2 : checkValueType v2 = none) :
    (c.Set t1 key v1 ttl1).1.Set t2 key v2 ttl2 = c.Set t2 key v2 ttl2 := by
  rw [set_accepted c t1 key v1 ttl1 hv1, set_accepted _ t2 key v2 ttl2 hv2,
    set_accepted c t2 key v2 ttl2 hv2]
  simp only [AList.insert_insert]

/-- C14: setting a key again with a longer ttl postpones its expiration. For
supported values, a first `Set` at `t0` with `ttl1` and a second at `t1 ≥ t0`
with `ttl2` where `t1 + ttl2 > t0 + ttl1`, and any `t` with
`t0 + ttl1 < t ≤ t1 + ttl2`: the first `Set` alone would be expired at `t`,
after the second `Set` a `Get` at `t` returns the second value, a sweep at `t`
keeps the entry with its value and expiration time `t1 + ttl2`, and a sweep at a
time `s` removes it exactly when `s` is after `t1 + ttl2`. -/
theorem reset_longer_ttl_postpones (c : Cache) (key : String) (v1 v2 : Value)
    (ttl1 ttl2 : Duration) (t0 t1 t : Time)
    (hshape1 : (∃ str, v1 = Value.str str) ∨ (∃ elems, v1 = Value.slice elems) ∨
      (∃ entries, v1 = Value.dict entries))
    (hshape2 : (∃ str, v2 = Value.str str) ∨ (∃ elems, v2 = Value.slice elems) ∨
      (∃ entries, v2 = Value.dict entries))
    (_h01 : t0 ≤ t1) (_hlonger : t0 + ttl1 < t1 + ttl2)
    (hlo : t0 + ttl1 < t) (hhi : t ≤ t1 + ttl2) :
    (c.Set t0 key v1 ttl1).1.Get t key = (Value.nil, some ErrElementExpired) ∧
    ((c.Set t0 key v1 ttl1).1.Set t1 key v2 ttl2).1.Get t key = (v2, none) ∧
    (((c.Set t0 key v1 ttl1).1.Set t1 key v2 ttl2).1.deleteExpired (fun _ => t)).data.lookup key
      = some ⟨v2, t1 + ttl2⟩ ∧
    (((c.Set t0 key v1 ttl1).1.Set t1 key v2 ttl2).1.deleteExpired (fun _ => t)).Get t key
      = (v2, none) ∧
    (∀ s : Time,
      key ∉ (((c.Set t0 key v1 ttl1).1.Set t1 key v2 ttl2).1.deleteExpired (fun _ => s)).data
        ↔ t1 + ttl2 < s) := by
  have hv1 : checkValueType v1 = none := (checkValueType_eq_none_iff v1).2 hshape1
  have hv2 : checkValueType v2 = none := (checkValueType_eq_none_iff v2).2 hshape2
  have hlook1 := lookup_set_self c t0 key v1 ttl1 hv1
  have hlook2 := lookup_set_self (c.Set t0 key v1 ttl1).1 t1 key v2 ttl2 hv2
  have hlive : ¬ (⟨v2, Time.Add t1 ttl2⟩ : item).expirationTime < t := not_lt.2 hhi
  have hkept := (lookup_deleteExpired ((c.Set t0 key v1 ttl1).1.Set t1 key v2 ttl2).1
    (fun _ => t) key ⟨v2, Time.Add t1 ttl2⟩).2 ⟨hlook2, hlive⟩
  refine ⟨unsafeGet_expired _ t key _ hlook1 hlo, unsafeGet_live _ t key _ hlook2 hlive,
    hkept, unsafeGet_live _ t key _ hkept hlive, ?_⟩
  intro s
  constructor
  · intro hnot
    by_contra hns
    have hk := (lookup_deleteExpired ((c.Set t0 key v1 ttl1).1.Set t1 key v2 ttl2).1
      (fun _ => s) key ⟨v2, Time.Add t1 ttl2⟩).2 ⟨hlook2, hns⟩
    rw [AList.lookup_eq_none.2 hnot] at hk
    cases hk
  · intro hs
    exact AList.lookup_eq_none.1
      (lookup_deleteExpired_eq_none _ (fun _ => s) key ⟨v2, Time.Add t1 ttl2⟩ hlook2 hs)

/-- Witness of C14: the scenario of `TestUpdateTtl`, in milliseconds: ttl 50 set
at time 0, ttl 150 set at time 1, read and swept at time 110. -/
theorem reset_longer_ttl_postpones_witness :
    ((NewCache ⟨100⟩).Set 0 "key" stringValue 50).1.Get 110 "key"
      = (Value.nil, some ErrElementExpired) ∧
    (((NewCache ⟨100⟩).Set 0 "key" stringValue 50).1.Set 1 "key" stringValue 150).1.Get 110 "key"
      = (stringValue, none) ∧
    ((((NewCache ⟨100⟩).Set 0 "key" stringValue 50).1.Set 1 "key" stringValue 150).1.deleteExpired
      (fun _ => 110)).data.lookup "key" = some ⟨stringValue, 1 + 150⟩ ∧
    ((((NewCache ⟨100⟩).Set 0 "key" stringValue 50).1.Set 1 "key" stringValue 150).1.deleteExpired
      (fun _ => 110)).Get 110 "key" = (stringValue, none) ∧
    (∀ s : Time,
      "key" ∉ ((((NewCache ⟨100⟩).Set 0 "key" stringValue 50).1.Set 1 "key" stringValue
        150).1.deleteExpired (fun _ => s)).data ↔ 1 + 150 < s) :=
  reset_longer_ttl_postpones (NewCache ⟨100⟩) "key" stringValue stringValue 50 150 0 1 110
    (Or.inl ⟨"value", rfl⟩) (Or.inl ⟨"value", rfl⟩) (by decide) (by decide) (by decide)
    (by decide)

/-- C15: `Set` overwrites wholesale. For supported values `v1` and `v2` of any
shapes, `Set` of `v1` followed by `Set` of `v2` under the same key gives the
same store and error as the second `Set` alone; a `Get` before the new
expiration returns `v2`; `GetListElem` and `GetMapElemValue` answer as on the
store of the second `Set` alone, with `ErrNotSliceValue` when `v2` is not a list
and `ErrNotMapValue` when `v2` is not a dict, whatever `v1` was; and `Keys`
holds the key exactly once. -/
theorem set_overwrites_wholesale (c : Cache) (key : String) (v1 v2 : Value)
    (ttl1 ttl2 : Duration) (t1 t2 : Time)
    (hshape1 : (∃ str, v1 = Value.str str) ∨ (∃ elems, v1 = Value.slice elems) ∨
      (∃ entries, v1 = Value.dict entries))
    (hshape2 : (∃ str, v2 = Value.str str) ∨ (∃ elems, v2 = Value.slice elems) ∨
      (∃ entries, v2 = Value.dict entries)) :
    (c.Set t1 key v1 ttl1).1.Set t2 key v2 ttl2 = c.Set t2 key v2 ttl2 ∧
    ((c.Set t1 key v1 ttl1).1.Set t2 key v2 ttl2).1.data.lookup key
      = some ⟨v2, t2 + ttl2⟩ ∧
    (∀ t : Time, ¬ t2 + ttl2 < t →
      ((c.Set t1 key v1 ttl1).1.Set t2 key v2 ttl2).1.Get t key = (v2, none)) ∧
    (∀ (t : Time) (index : Int),
      ((c.Set t1 key v1 ttl1).1.Set t2 key v2 ttl2).1.GetListElem t key index
        = (c.Set t2 key v2 ttl2).1.GetListElem t key index) ∧
    (∀ (t : Time) (mapKey : String),
      ((c.Set t1 key v1 ttl1).1.Set t2 key v2 ttl2).1.GetMapElemValue t key mapKey
        = (c.Set t2 key v2 ttl2).1.GetMapElemValue t key mapKey) ∧
    (∀ (t : Time) (index : Int), ¬ t2 + ttl2 < t → (∀ elems, v2 ≠ Value.slice elems) →
      ((c.Set t1 key v1 ttl1).1.Set t2 key v2 ttl2).1.GetListElem t key index
        = Exec.ret (Value.nil, some ErrNotSliceValue)) ∧
    (∀ (t : Time) (mapKey : String), ¬ t2 + ttl2 < t → (∀ entries, v2 ≠ Value.dict entries) →
      ((c.Set t1 key v1 ttl1).1.Set t2 key v2 ttl2).1.GetMapElemValue t key mapKey
        = (Value.nil, some ErrNotMapValue)) ∧
    ((c.Set t1 key v1 ttl1).1.Set t2 key v2 ttl2).1.Keys.1.count key = 1 := by
  have hv1 : checkValueType v1 = none := (checkValueType_eq_none_iff v1).2 hshape1
  have hv2 : checkValueType v2 = none := (checkValueType_eq_none_iff v2).2 hshape2
  have heq := set_set c t1 t2 key v1 v2 ttl1 ttl2 hv1 hv2
  have hlook := lookup_set_self (c.Set t1 key v1 ttl1).1 t2 key v2 ttl2 hv2
  have hget : ∀ t : Time, ¬ t2 + ttl2 < t →
      ((c.Set t1 key v1 ttl1).1.Set t2 key v2 ttl2).1.unsafeGet t key = (v2, none) :=
    fun t hlive => unsafeGet_live _ t key ⟨v2, Time.Add t2 ttl2⟩ hlook hlive
  refine ⟨heq, hlook, hget, ?_, ?_, ?_, ?_, ?_⟩
  · intro t index
    rw [heq]
  · intro t mapKey
    rw [heq]
  · intro t index hlive hns
    cases v2 with
    | slice elems => exact absurd rfl (hns elems)
    | _ => simp only [Cache.GetListElem, hget t hlive]
  · intro t mapKey hlive hnm
    cases v2 with
    | dict entries => exact absurd rfl (hnm entries)
    | _ => simp only [Cache.GetMapElemValue, hget t hlive]
  · have hmem : key ∈ ((c.Set t1 key v1 ttl1).1.Set t2 key v2 ttl2).1.data := by
      rw [← AList.lookup_isSome, hlook]
      rfl
    exact List.count_eq_one_of_mem (AList.keys_nodup _) (AList.mem_keys.1 hmem)

/-- Witness of C15: the scenario of `TestUpdateValueType`: the string is
replaced by the list, and the store is the one the list alone would give. -/
theorem set_overwrites_wholesale_witness :
    ((NewCache ⟨100⟩).Set 0 "key" stringValue 50).1.Set 1 "key" sliceValue 50
      = (NewCache ⟨100⟩).Set 1 "key" sliceValue 50 ∧
    (((NewCache ⟨100⟩).Set 0 "key" stringValue 50).1.Set 1 "key" sliceValue 50).1.Get 2 "key"
      = (sliceValue, none) ∧
    (((NewCache ⟨100⟩).Set 0 "key" stringValue 50).1.Set 1 "key" sliceValue 50).1.Keys.1.count
      "key" = 1 :=
  ⟨(set_overwrites_wholesale (NewCache ⟨100⟩) "key" stringValue sliceValue 50 50 0 1
      (Or.inl ⟨"value", rfl⟩) (Or.inr (Or.inl ⟨_, rfl⟩))).1,
   (set_overwrites_wholesale (NewCache ⟨100⟩) "key" stringValue sliceValue 50 50 0 1
      (Or.inl ⟨"value", rfl⟩) (Or.inr (Or.inl ⟨_, rfl⟩))).2.2.1 2 (by decide),
   (set_overwrites_wholesale (NewCache ⟨100⟩) "key" stringValue sliceValue 50 50 0 1
      (Or.inl ⟨"value", rfl⟩) (Or.inr (Or.inl ⟨_, rfl⟩))).2.2.2.2.2.2.2⟩

/-! ## Errors and totality -/

theorem getListElem_returns (c : Cache) (t : Time) (key : String) (index : Int) :
    ∃ r, c.GetListElem t key index = Exec.ret r ∧
      (r.2 = none ∨ (r.1 = Value.nil ∧
        (r.2 = some ErrElementNotFound ∨ r.2 = some ErrElementExpired ∨
          r.2 = some ErrNotSliceValue ∨ r.2 = some ErrIndexOutOfRange))) := by
  cases h : c.data.lookup key with
  | none =>
    refine ⟨(Value.nil, some ErrElementNotFound), ?_, Or.inr ⟨rfl, Or.inl rfl⟩⟩
    simp only [Cache.GetListElem, unsafeGet_absent c t key h]
  | some it =>
    by_cases hexp : it.expirationTime < t
    · refine ⟨(Value.nil, some ErrElementExpired), ?_, Or.inr ⟨rfl, Or.inr (Or.inl rfl)⟩⟩
      simp only [Cache.GetListElem, unsafeGet_expired c t key it h hexp]
    · have hget := unsafeGet_live c t key it h hexp
      cases hv : it.value with
      | slice elems =>
        rw [hv] at hget
        by_cases hguard : index < 0 ∨ (elems.length : Int) ≤ index
        · refine ⟨(Value.nil, some ErrIndexOutOfRange), ?_,
            Or.inr ⟨rfl, Or.inr (Or.inr (Or.inr rfl))⟩⟩
          simp only [Cache.GetListElem, hget]
          rw [if_pos hguard]
        · have h0 : 0 ≤ index := not_lt.1 (fun hc => hguard (Or.inl hc))
          have h1 : index < (elems.length : Int) := not_le.1 (fun hc => hguard (Or.inr hc))
          obtain ⟨v, _, hidx⟩ := sliceIndex_in_range elems index h0 h1
          refine ⟨(v, none), ?_, Or.inl rfl⟩
          simp only [Cache.GetListElem, hget, hidx]
          rw [if_neg hguard]
      | _ =>
        rw [hv] at hget
        refine ⟨(Value.nil, some ErrNotSliceValue), ?_,
          Or.inr ⟨rfl, Or.inr (Or.inr (Or.inl rfl))⟩⟩
        simp only [Cache.GetListElem, hget]

theorem getMapElemValue_returns (c : Cache) (t : Time) (key : String) (mapKey : String) :
    (c.GetMapElemValue t key mapKey).2 = none ∨
      ((c.GetMapElemValue t key mapKey).1 = Value.nil ∧
        ((c.GetMapElemValue t key mapKey).2 = some ErrElementNotFound ∨
          (c.GetMapElemValue t key mapKey).2 = some ErrElementExpired ∨
          (c.GetMapElemValue t key mapKey).2 = some ErrNotMapValue ∨
          (c.GetMapElemValue t key mapKey).2 = some ErrMapElementNotFound)) := by
  cases h : c.data.lookup key with
  | none =>
    have hr : c.GetMapElemValue t key mapKey = (Value.nil, some ErrElementNotFound) := by
      simp only [Cache.GetMapElemValue, unsafeGet_absent c t key h]
    rw [hr]
    exact Or.inr ⟨rfl, Or.inl rfl⟩
  | some it =>
    by_cases hexp : it.expirationTime < t
    · have hr : c.GetMapElemValue t key mapKey = (Value.nil, some ErrElementExpired) := by
        simp only [Cache.GetMapElemValue, unsafeGet_expired c t key it h hexp]
      rw [hr]
      exact Or.inr ⟨rfl, Or.inr (Or.inl rfl)⟩
    · have hget := unsafeGet_live c t key it h hexp
      cases hv : it.value with
      | dict entries =>
        rw [hv] at hget
        cases hm : mapIndex entries mapKey with
        | none =>
          have hr : c.GetMapElemValue t key mapKey
              = (Value.nil, some ErrMapElementNotFound) := by
            simp only [Cache.GetMapElemValue, hget, hm]
          rw [hr]
          exact Or.inr ⟨rfl, Or.inr (Or.inr (Or.inr rfl))⟩
        | some v =>
          have hr : c.GetMapElemValue t key mapKey = (v, none) := by
            simp only [Cache.GetMapElemValue, hget, hm]
          rw [hr]
          exact Or.inl rfl
      | _ =>
        rw [hv] at hget
        have hr : c.GetMapElemValue t key mapKey = (Value.nil, some ErrNotMapValue) := by
          simp only [Cache.GetMapElemValue, hget]
        rw [hr]
        exact Or.inr ⟨rfl, Or.inr (Or.inr (Or.inl rfl))⟩

/-- C16: the error taxonomy is exhaustive and every operation returns. For
every store, time and arguments: `Set` fails only with `ErrInvalidValueType`;
`Get` returns a value with no error, or nil with `ErrElementNotFound` or
`ErrElementExpired`; `GetListElem` returns (it does not panic) a value with no
error, or nil with `ErrElementNotFound`, `ErrElementExpired`, `ErrNotSliceValue`
or `ErrIndexOutOfRange`; `GetMapElemValue` returns a value with no error, or nil
with `ErrElementNotFound`, `ErrElementExpired`, `ErrNotMapValue` or
`ErrMapElementNotFound`; `Remove` and `Keys` return no error. -/
theorem error_taxonomy_exhaustive (c : Cache) (t : Time) (key : String) (index : Int)
    (mapKey : String) (value : Value) (ttl : Duration) :
    ((c.Set t key value ttl).2 = none ∨
      (c.Set t key value ttl).2 = some ErrInvalidValueType) ∧
    ((c.Get t key).2 = none ∨
      ((c.Get t key).1 = Value.nil ∧
        ((c.Get t key).2 = some ErrElementNotFound ∨
          (c.Get t key).2 = some ErrElementExpired))) ∧
    (∃ r, c.GetListElem t key index = Exec.ret r ∧
      (r.2 = none ∨ (r.1 = Value.nil ∧
        (r.2 = some ErrElementNotFound ∨ r.2 = some ErrElementExpired ∨
          r.2 = some ErrNotSliceValue ∨ r.2 = some ErrIndexOutOfRange)))) ∧
    ((c.GetMapElemValue t key mapKey).2 = none ∨
      ((c.GetMapElemValue t key mapKey).1 = Value.nil ∧
        ((c.GetMapElemValue t key mapKey).2 = some ErrElementNotFound ∨
          (c.GetMapElemValue t key mapKey).2 = some ErrElementExpired ∨
          (c.GetMapElemValue t key mapKey).2 = some ErrNotMapValue ∨
          (c.GetMapElemValue t key mapKey).2 = some ErrMapElementNotFound))) ∧
    (c.Remove key).2 = none ∧
    c.Keys.2 = none := by
  refine ⟨?_, ?_, getListElem_returns c t key index,
    getMapElemValue_returns c t key mapKey, rfl, rfl⟩
  · cases hv : checkValueType value with
    | none =>
      left
      rw [set_accepted c t key value ttl hv]
    | some e =>
      right
      have he := checkValueType_eq_some value e hv
      subst he
      simp [Cache.Set, hv]
  · cases h : c.data.lookup key with
    | none =>
      right
      rw [show c.Get t key = c.unsafeGet t key from rfl, unsafeGet_absent c t key h]
      exact ⟨rfl, Or.inl rfl⟩
    | some it =>
      by_cases hexp : it.expirationTime < t
      · right
        rw [show c.Get t key = c.unsafeGet t key from rfl,
          unsafeGet_expired c t key it h hexp]
        exact ⟨rfl, Or.inr rfl⟩
      · left
        rw [show c.Get t key = c.unsafeGet t key from rfl, unsafeGet_live c t key it h hexp]

/-! ## Writes are local to their key -/

/-- C17: writes are local to their key. For keys `k'` and `k` that differ and any
value, ttl and times, neither `Set` on `k` nor `Remove` of `k` changes the entry
under `k'` (absent stays absent); `Get`, `GetListElem` and `GetMapElemValue` on
`k'` return the same results after as before; and every string other than `k` is
in the result of `Keys` after exactly when it was before. -/
theorem writes_local_to_key (c : Cache) (k k' : String) (value : Value) (ttl : Duration)
    (t0 t : Time) (index : Int) (mapKey : String) (hne : k' ≠ k) :
    (c.Set t0 k value ttl).1.data.lookup k' = c.data.lookup k' ∧
    (c.Remove k).1.data.lookup k' = c.data.lookup k' ∧
    (c.Set t0 k value ttl).1.Get t k' = c.Get t k' ∧
    (c.Remove k).1.Get t k' = c.Get t k' ∧
    (c.Set t0 k value ttl).1.GetListElem t k' index = c.GetListElem t k' index ∧
    (c.Remove k).1.GetListElem t k' index = c.GetListElem t k' index ∧
    (c.Set t0 k value ttl).1.GetMapElemValue t k' mapKey = c.GetMapElemValue t k' mapKey ∧
    (c.Remove k).1.GetMapElemValue t k' mapKey = c.GetMapElemValue t k' mapKey ∧
    (∀ x, x ≠ k → (x ∈ (c.Set t0 k value ttl).1.Keys.1 ↔ x ∈ c.Keys.1)) ∧
    (∀ x, x ≠ k → (x ∈ (c.Remove k).1.Keys.1 ↔ x ∈ c.Keys.1)) := by
  have hset := lookup_set_ne c t0 k value ttl k' hne
  have hrem := lookup_remove_ne c k k' hne
  have hkeys : ∀ (d : Cache) (x : String), d.data.lookup x = c.data.lookup x →
      (x ∈ d.Keys.1 ↔ x ∈ c.Keys.1) := by
    intro d x hx
    show x ∈ d.data.keys ↔ x ∈ c.data.keys
    rw [← AList.mem_keys, ← AList.mem_keys, ← AList.lookup_isSome, ← AList.lookup_isSome, hx]
  exact ⟨hset, hrem, unsafeGet_congr _ c t k' hset, unsafeGet_congr _ c t k' hrem,
    getListElem_congr _ c t k' index hset, getListElem_congr _ c t k' index hrem,
    getMapElemValue_congr _ c t k' mapKey hset, getMapElemValue_congr _ c t k' mapKey hrem,
    fun x hx => hkeys _ x (lookup_set_ne c t0 k value ttl x hx),
    fun x hx => hkeys _ x (lookup_remove_ne c k x hx)⟩

/-- Witness of C17: with "other" holding the list of the test suite, setting and
removing "key" leave the entry and the reads of "other" as they were. -/
theorem writes_local_to_key_witness :
    (((NewCache ⟨100⟩).Set 0 "other" sliceValue 50).1.Set 1 "key" stringValue 50).1.data.lookup
        "other"
      = ((NewCache ⟨100⟩).Set 0 "other" sliceValue 50).1.data.lookup "other" ∧
    (((NewCache ⟨100⟩).Set 0 "other" sliceValue 50).1.Remove "key").1.Get 2 "other"
      = ((NewCache ⟨100⟩).Set 0 "other" sliceValue 50).1.Get 2 "other" :=
  ⟨(writes_local_to_key ((NewCache ⟨100⟩).Set 0 "other" sliceValue 50).1 "key" "other"
      stringValue 50 1 2 0 "one" (by decide)).1,
   (writes_local_to_key ((NewCache ⟨100⟩).Set 0 "other" sliceValue 50).1 "key" "other"
      stringValue 50 1 2 0 "one" (by decide)).2.2.2.1⟩

end MemoryCache
